import Mathlib

/-!
Shallow embedding of the 3-judge panel evaluation engine of
`legal_events_prod` (files `src/core/judge_panel.py` and
`src/core/judges/*.py`), together with theorems settling the spec claims.

Python floats are modelled by exact rationals; the one genuinely
irrational operation (`statistics.stdev` / the square root in the Pearson
denominator) lands in `ℝ` via `Real.sqrt`.  Python dicts are modelled by
association lists in insertion order, which is how Python iterates them.
-/

namespace LegalEvents

/-- Mean of a list of rationals, modelling `statistics.mean`.  The source
only calls it on non-empty lists (Python raises on empty input; here the
empty case yields the junk value `0/0 = 0`). -/
def meanQ (xs : List ℚ) : ℚ := xs.sum / xs.length

/-- Median modelling `statistics.median`: sort, take the middle element
for odd length, the average of the two middle elements for even length.
The source only calls it on non-empty lists. -/
def median (xs : List ℚ) : ℚ :=
  let s := xs.insertionSort (fun a b => a ≤ b)
  let n := xs.length
  if n % 2 = 1 then s.getD (n / 2) 0
  else (s.getD (n / 2 - 1) 0 + s.getD (n / 2) 0) / 2

/-- Sample variance with the `n - 1` denominator, the quantity under the
square root in `statistics.stdev`. -/
def sampleVariance (xs : List ℚ) : ℚ :=
  (xs.map (fun x => (x - meanQ xs) ^ 2)).sum / ((xs.length - 1 : ℕ) : ℚ)

/-- Sample standard deviation, modelling `statistics.stdev`. -/
noncomputable def stdev (xs : List ℚ) : ℝ :=
  Real.sqrt ((sampleVariance xs : ℚ) : ℝ)

/-- Scores of one provider by one judge (`src/core/judges/base_judge.py`,
dataclass `ProviderScore`). -/
structure ProviderScore where
  provider : String
  document_name : String
  completeness : ℚ
  accuracy : ℚ
  hallucinations : ℚ
  citation_quality : ℚ
  overall_quality : ℚ
  reasoning : String
  event_count : ℕ
deriving DecidableEq, Repr

/-- Result of one judge for one document (`src/core/judges/base_judge.py`,
dataclass `JudgeResult`). -/
structure JudgeResult where
  judge_name : String
  model : String
  document_name : String
  provider_scores : List ProviderScore
  winner : String
  timestamp : String
  cost : ℚ
  thinking_tokens : ℕ
deriving DecidableEq, Repr

/-- One extracted event: a record of free-text fields.  The panel never
inspects event contents, only counts them. -/
abbrev EventRecord := List (String × String)

/-- The `provider_outputs` argument: a dict mapping provider names to
event lists, in insertion order. -/
abbrev ProviderOutputs := List (String × List EventRecord)

/-- Dict lookup with default, modelling `provider_outputs.get(k, [])`. -/
def povGet (po : ProviderOutputs) (k : String) : List EventRecord :=
  match po.find? (fun p => p.1 = k) with
  | some p => p.2
  | none => []

/-- The per-provider score collection of `_calculate_consensus_scores`
(`src/core/judge_panel.py` lines 234-241): every judge result in dict
order, every score in list order, kept when it names the provider. -/
def collect_scores (results : List JudgeResult) (provider : String) : List ProviderScore :=
  (results.map (fun r => r.provider_scores.filter (fun s => s.provider = provider))).flatten

/-- The `score_variance` dict of a `ConsensusScore`, keyed by the five
fixed criterion names. -/
structure ScoreVariance where
  completeness : ℝ
  accuracy : ℝ
  hallucinations : ℝ
  citation_quality : ℝ
  overall_quality : ℝ

/-- Consensus scores for one provider (`src/core/judge_panel.py`,
dataclass `ConsensusScore`). -/
structure ConsensusScore where
  provider : String
  completeness : ℚ
  accuracy : ℚ
  hallucinations : ℚ
  citation_quality : ℚ
  overall_quality : ℚ
  score_variance : ScoreVariance

/-- The guarded standard deviation of `_calculate_consensus_scores`:
`statistics.stdev(xs) if len(xs) > 1 else 0.0`. -/
noncomputable def stdev_or_zero (xs : List ℚ) : ℝ :=
  if 1 < xs.length then stdev xs else 0

/-- Body of the per-provider loop of `_calculate_consensus_scores`
(`src/core/judge_panel.py` lines 226-259): `none` when no judge scored
the provider (the `if completeness_scores:` guard), otherwise medians per
criterion and guarded standard deviations. -/
noncomputable def consensus_for (results : List JudgeResult) (provider : String) :
    Option ConsensusScore :=
  let coll := collect_scores results provider
  if coll.isEmpty then none else
  some
    { provider := provider
    , completeness := median (coll.map (fun s => s.completeness))
    , accuracy := median (coll.map (fun s => s.accuracy))
    , hallucinations := median (coll.map (fun s => s.hallucinations))
    , citation_quality := median (coll.map (fun s => s.citation_quality))
    , overall_quality := median (coll.map (fun s => s.overall_quality))
    , score_variance :=
      { completeness := stdev_or_zero (coll.map (fun s => s.completeness))
      , accuracy := stdev_or_zero (coll.map (fun s => s.accuracy))
      , hallucinations := stdev_or_zero (coll.map (fun s => s.hallucinations))
      , citation_quality := stdev_or_zero (coll.map (fun s => s.citation_quality))
      , overall_quality := stdev_or_zero (coll.map (fun s => s.overall_quality)) } }

/-- The `_calculate_consensus_scores` method: one optional consensus entry
per provider of `provider_outputs`, in dict order. -/
noncomputable def calculate_consensus_scores (results : List JudgeResult)
    (po : ProviderOutputs) : List (String × ConsensusScore) :=
  po.filterMap (fun p => (consensus_for results p.1).map (fun c => (p.1, c)))

/-- One vote-tally step, modelling
`winner_votes[winner] = winner_votes.get(winner, 0) + 1` on a Python dict
(insertion order preserved, first occurrence fixes the position). -/
def bump_vote (votes : List (String × ℕ)) (w : String) : List (String × ℕ) :=
  if votes.any (fun p => p.1 = w) then
    votes.map (fun p => if p.1 = w then (p.1, p.2 + 1) else p)
  else votes ++ [(w, 1)]

/-- The vote tally of `_determine_consensus_winner`
(`src/core/judge_panel.py` lines 268-272). -/
def tally_votes (results : List JudgeResult) : List (String × ℕ) :=
  results.foldl (fun votes r => bump_vote votes r.winner) []

/-- Python `max(items, key=lambda x: x[1])`: first element attaining the
maximal count wins (a later element replaces only when strictly greater);
`none` models the `ValueError` raised on an empty sequence. -/
def py_max_by_count : List (String × ℕ) → Option (String × ℕ)
  | [] => none
  | x :: xs => some (xs.foldl (fun best p => if best.2 < p.2 then p else best) x)

/-- The `_determine_consensus_winner` method (`src/core/judge_panel.py`
lines 263-277); `none` models the `ValueError` escaping from `max` when
no judge returned a result. -/
def determine_consensus_winner (results : List JudgeResult) :
    Option (String × List (String × ℕ)) :=
  (py_max_by_count (tally_votes results)).map (fun m => (m.1, tally_votes results))

/-- Inter-judge agreement metrics (`src/core/judge_panel.py`, dataclass
`InterJudgeAgreement`). -/
structure InterJudgeAgreement where
  pearson_correlation : List (String × ℝ)
  average_correlation : ℝ
  score_std_dev_per_provider : List (String × ScoreVariance)
  winner_consensus_percentage : ℚ
  confidence_level : String

/-- The `_pearson_correlation` static method (`src/core/judge_panel.py`
lines 337-354): 0 on mismatched or short input, 0 when either deviation
sum vanishes, otherwise the usual quotient with a real square root in the
denominator. -/
noncomputable def pearson_correlation (x y : List ℚ) : ℝ :=
  if x.length ≠ y.length ∨ x.length < 2 then 0
  else
    let n := x.length
    let mx := meanQ x
    let my := meanQ y
    let num := ((List.range n).map (fun i => (x.getD i 0 - mx) * (y.getD i 0 - my))).sum
    let dx := ((List.range n).map (fun i => (x.getD i 0 - mx) ^ 2)).sum
    let dy := ((List.range n).map (fun i => (y.getD i 0 - my) ^ 2)).sum
    if dx = 0 ∨ dy = 0 then 0
    else ((num : ℚ) : ℝ) / Real.sqrt (((dx : ℚ) : ℝ) * ((dy : ℚ) : ℝ))

/-- Positional list of `overall_quality` values of one judge, as read in
`_calculate_agreement` (`src/core/judge_panel.py` lines 296-297). -/
def overall_list (r : JudgeResult) : List ℚ :=
  r.provider_scores.map (fun s => s.overall_quality)

/-- Index pairs of the nested loops `for i in range(n): for j in
range(i+1, n)`. -/
def index_pairs (n : ℕ) : List (ℕ × ℕ) :=
  (List.range n).flatMap
    (fun i => ((List.range n).filter (fun j => i < j)).map (fun j => (i, j)))

/-- The pairwise-correlation dict of `_calculate_agreement`
(`src/core/judge_panel.py` lines 286-301): one entry per ordered index
pair i < j of surviving judges whose positional score lists have equal
length greater than one. -/
noncomputable def pair_correlations (ir : List (String × JudgeResult)) :
    List (String × ℝ) :=
  (index_pairs ir.length).filterMap (fun ij =>
    match ir.get? ij.1, ir.get? ij.2 with
    | some p1, some p2 =>
      let s1 := overall_list p1.2
      let s2 := overall_list p2.2
      if s1.length = s2.length ∧ 1 < s1.length then
        some (p1.1 ++ "_vs_" ++ p2.1, pearson_correlation s1 s2)
      else none
    | _, _ => none)

/-- Mean of a list of reals, modelling `statistics.mean` on the
correlation values. -/
noncomputable def meanR (xs : List ℝ) : ℝ := xs.sum / xs.length

/-- The `_calculate_agreement` method (`src/core/judge_panel.py` lines
279-335).  The winner-consensus percentage counts agreement with the
first judge in dict (arrival) order; the confidence thresholds mirror
lines 322-327. -/
noncomputable def calculate_agreement (ir : List (String × JudgeResult))
    (cs : List (String × ConsensusScore)) : InterJudgeAgreement :=
  let correlations := pair_correlations ir
  let average_correlation : ℝ :=
    if correlations.isEmpty then 0 else meanR (correlations.map (fun p => p.2))
  let score_std_dev := cs.map (fun p => (p.1, p.2.score_variance))
  let total_judges := ir.length
  let winner_votes_count : ℕ :=
    match ir with
    | [] => 0
    | p0 :: _ => (ir.filter (fun p => p.2.winner = p0.2.winner)).length
  let winner_consensus_pct : ℚ :=
    if 0 < total_judges then ((winner_votes_count : ℚ) / (total_judges : ℚ)) * 100 else 0
  let confidence : String :=
    if (8 / 10 : ℝ) ≤ average_correlation ∧ winner_consensus_pct = 100 then "HIGH"
    else if (6 / 10 : ℝ) ≤ average_correlation ∧ (67 : ℚ) ≤ winner_consensus_pct then "MEDIUM"
    else "LOW"
  { pearson_correlation := correlations
  , average_correlation := average_correlation
  , score_std_dev_per_provider := score_std_dev
  , winner_consensus_percentage := winner_consensus_pct
  , confidence_level := confidence }

/-- A dispatched judge: its class name and its `judge_providers` callable,
which either returns a result or raises (modelled by `Except.error`). -/
structure Judge where
  name : String
  run : String → ProviderOutputs → Except String JudgeResult

/-- Python dict assignment `results[key] = value`: overwrite in place when
the key exists, append otherwise. -/
def dict_insert (k : String) (v : JudgeResult) (d : List (String × JudgeResult)) :
    List (String × JudgeResult) :=
  if d.any (fun p => p.1 = k) then d.map (fun p => if p.1 = k then (k, v) else p)
  else d ++ [(k, v)]

/-- The `_run_judges_parallel` method (`src/core/judge_panel.py` lines
193-216): collect each completing judge's result keyed by its
`judge_name`, swallowing (logging) exceptions.  The list order of
`judges` stands for the nondeterministic `as_completed` arrival order. -/
def run_judges_parallel (judges : List Judge) (doc : String) (po : ProviderOutputs) :
    List (String × JudgeResult) :=
  judges.foldl (fun acc j =>
    match j.run doc po with
    | Except.ok r => dict_insert r.judge_name r acc
    | Except.error _ => acc) []

/-- Complete panel evaluation result (`src/core/judge_panel.py`,
dataclass `PanelResult`). -/
structure PanelResult where
  document_name : String
  timestamp : String
  judges_used : List String
  individual_results : List (String × JudgeResult)
  consensus_method : String
  consensus_scores : List (String × ConsensusScore)
  consensus_winner : String
  winner_votes : List (String × ℕ)
  agreement : InterJudgeAgreement
  total_cost : ℚ
  total_thinking_tokens : ℕ

/-- Errors escaping from `judge_document` itself. -/
inductive PanelError where
  /-- The `ValueError` raised by `max()` on the empty vote tally. -/
  | empty_votes
deriving DecidableEq, Repr

/-- The `judge_document` method (`src/core/judge_panel.py` lines
137-191): run judges, aggregate consensus scores, pick a winner by
majority vote, compute agreement, total costs.  The `ts` parameter stands
for `datetime.now().isoformat()`. -/
noncomputable def judge_document (judges : List Judge) (document_name ts : String)
    (po : ProviderOutputs) : Except PanelError PanelResult :=
  let individual_results := run_judges_parallel judges document_name po
  let consensus_scores := calculate_consensus_scores (individual_results.map (fun p => p.2)) po
  match determine_consensus_winner (individual_results.map (fun p => p.2)) with
  | none => Except.error PanelError.empty_votes
  | some wv =>
    let agreement := calculate_agreement individual_results consensus_scores
    Except.ok
      { document_name := document_name
      , timestamp := ts
      , judges_used := individual_results.map (fun p => p.2.judge_name)
      , individual_results := individual_results
      , consensus_method := "median_scores_majority_winner"
      , consensus_scores := consensus_scores
      , consensus_winner := wv.1
      , winner_votes := wv.2
      , agreement := agreement
      , total_cost := (individual_results.map (fun p => p.2.cost)).sum
      , total_thinking_tokens := (individual_results.map (fun p => p.2.thinking_tokens)).sum }

/-- The constructor guard of `JudgePanel.__init__` (`src/core/judge_panel.py`
lines 84-135).  Each argument is the outcome of one credentialed
initialization attempt (`none` when the key is absent or the judge
constructor raised and was caught); the `ValueError` on fewer than two
judges is raised before any per-document evaluation is dispatched, since
construction never calls any judge's `run`. -/
def init_panel (gpt5 claude gemini : Option Judge) : Except String (List Judge) :=
  let judges := [gpt5, claude, gemini].filterMap id
  if judges.length < 2 then
    Except.error "At least 2 judges required for panel"
  else Except.ok judges

/-- Parsed JSON values, the result type of a successful `json.loads`. -/
inductive JsonVal where
  | null
  | boolean (b : Bool)
  | num (q : ℚ)
  | str (s : String)
  | arr (items : List JsonVal)
  | obj (fields : List (String × JsonVal))

/-- Outcome of a judge's `_call_api` plus `json.loads`: an API-level
exception, a body that `json.loads` rejects, or a parsed JSON value. -/
inductive ApiResponse where
  | apiFailure (msg : String)
  | invalidJson (raw : String)
  | jsonBody (v : JsonVal)

/-- Errors escaping from a judge's `judge_providers`: re-raised API
exceptions, `json.JSONDecodeError`, `KeyError` on a missing required
field, and type errors (`float()` on a non-numeric value, subscripting a
non-dict, iterating a non-list). -/
inductive JudgeError where
  | apiFailure (msg : String)
  | jsonDecode
  | keyMissing (k : String)
  | typeMismatch
deriving DecidableEq, Repr

/-- Dict field lookup on a parsed JSON object. -/
def get_field (fields : List (String × JsonVal)) (k : String) : Option JsonVal :=
  (fields.find? (fun p => p.1 = k)).map (fun p => p.2)

/-- Python `float(v)` on a JSON value.  Numeric strings, which `float`
would also accept, are outside the model (no claim exercises them). -/
def as_float : JsonVal → Except JudgeError ℚ
  | JsonVal.num q => Except.ok q
  | JsonVal.boolean b => Except.ok (if b then 1 else 0)
  | _ => Except.error JudgeError.typeMismatch

/-- Required dict access `entry[k]`: `KeyError` when absent. -/
def req_field (entry : List (String × JsonVal)) (k : String) : Except JudgeError JsonVal :=
  match get_field entry k with
  | some v => Except.ok v
  | none => Except.error (JudgeError.keyMissing k)

/-- Required numeric field: `float(entry[k])`. -/
def req_float (entry : List (String × JsonVal)) (k : String) : Except JudgeError ℚ :=
  req_field entry k >>= as_float

/-- Required string field.  The source stores the raw value without
conversion; the model is restricted to string-valued names and reasoning
texts, which is all any claim exercises. -/
def req_str (entry : List (String × JsonVal)) (k : String) : Except JudgeError String :=
  match get_field entry k with
  | some (JsonVal.str s) => Except.ok s
  | some _ => Except.error JudgeError.typeMismatch
  | none => Except.error (JudgeError.keyMissing k)

/-- One iteration of the score-building loop of `judge_providers`
(`src/core/judges/gpt5_judge.py` lines 84-96, identically
`claude_opus_judge.py` lines 89-101 and `gemini_pro_judge.py` lines
84-96): required subscript access for each field, `event_count` from
`provider_outputs.get(provider, [])` — the entry is kept even when its
provider is absent from `provider_outputs`. -/
def parse_provider_entry (document_name : String) (po : ProviderOutputs) :
    JsonVal → Except JudgeError ProviderScore
  | JsonVal.obj entry => do
    let provider ← req_str entry "provider"
    let completeness ← req_float entry "completeness"
    let accuracy ← req_float entry "accuracy"
    let hallucinations ← req_float entry "hallucinations"
    let citation_quality ← req_float entry "citation_quality"
    let overall_quality ← req_float entry "overall_quality"
    let reasoning ← req_str entry "reasoning"
    Except.ok
      { provider := provider
      , document_name := document_name
      , completeness := completeness
      , accuracy := accuracy
      , hallucinations := hallucinations
      , citation_quality := citation_quality
      , overall_quality := overall_quality
      , reasoning := reasoning
      , event_count := (povGet po provider).length }
  | _ => Except.error JudgeError.typeMismatch

/-- The loop over the response's providers, aborting at the first failing
entry as the Python loop does when an access raises. -/
def build_scores (document_name : String) (po : ProviderOutputs) :
    List JsonVal → Except JudgeError (List ProviderScore)
  | [] => Except.ok []
  | e :: es => do
    let s ← parse_provider_entry document_name po e
    let rest ← build_scores document_name po es
    Except.ok (s :: rest)

/-- The access `result.get("providers", [])`: an absent key yields the
empty list (not an error); iterating a non-list value raises. -/
def providers_array (fields : List (String × JsonVal)) : Except JudgeError (List JsonVal) :=
  match get_field fields "providers" with
  | none => Except.ok []
  | some (JsonVal.arr xs) => Except.ok xs
  | some _ => Except.error JudgeError.typeMismatch

/-- The access `result.get("winner", "unknown")`: the response's winner
field is taken verbatim, never recomputed from the scores; an absent key
yields the string "unknown".  The source would keep a non-string value
unchanged; the model is restricted to string winners. -/
def winner_field (fields : List (String × JsonVal)) : String :=
  match get_field fields "winner" with
  | some (JsonVal.str s) => s
  | some _ => ""
  | none => "unknown"

/-- A judge's `judge_providers` (`src/core/judges/gpt5_judge.py` lines
52-116; the scoring logic is identical in all three variants, which
differ only in the fixed `judge_name`, `model`, cost and thinking-token
bookkeeping, here parameters).  An API exception or undecodable body
fails the whole call; on a parsed object response it builds one
`ProviderScore` per entry of the "providers" array and takes the winner
from the "winner" field. -/
def judge_providers (judge_name model ts : String) (thinking_tokens : ℕ) (cost : ℚ)
    (document_name : String) (po : ProviderOutputs) (response : ApiResponse) :
    Except JudgeError JudgeResult :=
  match response with
  | ApiResponse.apiFailure m => Except.error (JudgeError.apiFailure m)
  | ApiResponse.invalidJson _ => Except.error JudgeError.jsonDecode
  | ApiResponse.jsonBody (JsonVal.obj fields) => do
    let entries ← providers_array fields
    let provider_scores ← build_scores document_name po entries
    Except.ok
      { judge_name := judge_name
      , model := model
      , document_name := document_name
      , provider_scores := provider_scores
      , winner := winner_field fields
      , timestamp := ts
      , cost := cost
      , thinking_tokens := thinking_tokens }
  | ApiResponse.jsonBody _ => Except.error JudgeError.typeMismatch

/-!
Specification-side helpers: dict lookups, deviation sums and pair
qualification predicates used to state the claims, plus concrete
fixtures the witnesses evaluate.
-/

/-- Dict subscript on an association list: first entry with the key. -/
def alist_get? {α : Type} (l : List (String × α)) (k : String) : Option α :=
  (l.find? (fun p => p.1 = k)).map (fun p => p.2)

/-- Vote count of a provider in a tally, 0 when absent. -/
def lookup_count : List (String × ℕ) → String → ℕ
  | [], _ => 0
  | p :: ps, w => if p.1 = w then p.2 else lookup_count ps w

/-- Sum of squared deviations from the mean, the quantity the source
calls `denominator_x`; it vanishes exactly on constant vectors. -/
def dev_sq_sum (x : List ℚ) : ℚ :=
  ((List.range x.length).map (fun i => (x.getD i 0 - meanQ x) ^ 2)).sum

/-- Qualification test of an index pair of judges for a pairwise
correlation entry: both positional score lists have the same length,
greater than one. -/
def pc_qualifies (ir : List (String × JudgeResult)) (ij : ℕ × ℕ) : Bool :=
  match ir.get? ij.1, ir.get? ij.2 with
  | some p1, some p2 =>
      decide ((overall_list p1.2).length = (overall_list p2.2).length ∧
        1 < (overall_list p1.2).length)
  | _, _ => false

/-- The correlation entry built for a qualifying pair of judges. -/
noncomputable def pc_entry (ir : List (String × JudgeResult)) (ij : ℕ × ℕ) : String × ℝ :=
  match ir.get? ij.1, ir.get? ij.2 with
  | some p1, some p2 =>
      (p1.1 ++ "_vs_" ++ p2.1,
        pearson_correlation (overall_list p1.2) (overall_list p2.2))
  | _, _ => ("", 0)

/-- The response fields read with a raising subscript in the per-provider
loop of every judge variant. -/
def required_keys : List String :=
  ["provider", "completeness", "accuracy", "hallucinations", "citation_quality",
   "overall_quality", "reasoning"]

/-- Fixture: a provider score with the five criterion values. -/
def mkPS (prov : String) (c a h cq oq : ℚ) : ProviderScore :=
  { provider := prov, document_name := "doc", completeness := c, accuracy := a,
    hallucinations := h, citation_quality := cq, overall_quality := oq,
    reasoning := "r", event_count := 0 }

/-- Fixture: a judge result with the given name, winner and scores. -/
def mkJR (jn w : String) (scores : List ProviderScore) : JudgeResult :=
  { judge_name := jn, model := jn, document_name := "doc", provider_scores := scores,
    winner := w, timestamp := "t", cost := 0, thinking_tokens := 0 }

/-- Fixture: three judge results for the winner tally example A, B, A. -/
def rsABA : List JudgeResult := [mkJR "j1" "A" [], mkJR "j2" "B" [], mkJR "j3" "A" []]

/-- Fixture: three surviving judges, in arrival order, with winners
A, A, B. -/
def irAAB : List (String × JudgeResult) :=
  [("j1", mkJR "j1" "A" []), ("j2", mkJR "j2" "A" []), ("j3", mkJR "j3" "B" [])]

/-- Fixture: two surviving judges scoring the same two providers, in the
same positional order. -/
def irPair : List (String × JudgeResult) :=
  [("j1", mkJR "j1" "A" [mkPS "A" 0 0 0 0 8, mkPS "B" 0 0 0 0 9]),
   ("j2", mkJR "j2" "A" [mkPS "A" 0 0 0 0 7, mkPS "B" 0 0 0 0 10])]

/-- Fixture: judge results where provider A is scored by all three
judges with completeness 8, 9, 10, provider B by one judge, and
provider C by none. -/
def rsScores : List JudgeResult :=
  [mkJR "j1" "A" [mkPS "A" 8 7 10 5 (17 / 2)],
   mkJR "j2" "A" [mkPS "A" 9 8 9 6 9, mkPS "B" 4 4 4 4 4],
   mkJR "j3" "B" [mkPS "A" 10 9 8 7 (19 / 2)]]

/-- Fixture: the provider-outputs dict with providers A, B and C. -/
def poABC : ProviderOutputs := [("A", []), ("B", []), ("C", [])]

/-- Fixture: a judge whose call succeeds. -/
def jGoodW : Judge := ⟨"GPT5Judge", fun _ _ => Except.ok (mkJR "gpt-5" "A" [])⟩

/-- Fixture: a second succeeding judge with a distinct result name. -/
def jGood2W : Judge := ⟨"GeminiProJudge", fun _ _ => Except.ok (mkJR "gemini-2.5-pro" "A" [])⟩

/-- Fixture: a judge whose call raises. -/
def jBadW : Judge := ⟨"ClaudeOpusJudge", fun _ _ => Except.error "boom"⟩

/-- Fixture: the provider-outputs dict for the judge-level claims. -/
def ghost_po : ProviderOutputs := [("alpha", [])]

/-- Fixture: a well-formed response entry naming a provider that is
absent from `ghost_po`. -/
def ghost_entry : List (String × JsonVal) :=
  [("provider", JsonVal.str "ghost"), ("completeness", JsonVal.num 1),
   ("accuracy", JsonVal.num 2), ("hallucinations", JsonVal.num 3),
   ("citation_quality", JsonVal.num 4), ("overall_quality", JsonVal.num 5),
   ("reasoning", JsonVal.str "r")]

/-- Fixture: a parsed response whose only scored provider is the ghost. -/
def ghost_fields : List (String × JsonVal) :=
  [("providers", JsonVal.arr [JsonVal.obj ghost_entry]), ("winner", JsonVal.str "ghost")]

/-- Fixture: a response entry missing the required field
`overall_quality`. -/
def missing_entry : List (String × JsonVal) :=
  [("provider", JsonVal.str "alpha"), ("completeness", JsonVal.num 8),
   ("accuracy", JsonVal.num 8), ("hallucinations", JsonVal.num 9),
   ("citation_quality", JsonVal.num 7)]

/-- Fixture: a parsed response containing the incomplete entry. -/
def missing_fields : List (String × JsonVal) :=
  [("providers", JsonVal.arr [JsonVal.obj missing_entry])]

/-!
Helper lemmas shared by the claim theorems.
-/

theorem run_judges_parallel_all_fail (judges : List Judge) (doc : String)
    (po : ProviderOutputs) (h : ∀ j ∈ judges, ∃ e, j.run doc po = Except.error e) :
    run_judges_parallel judges doc po = [] := by
  unfold run_judges_parallel
  suffices H : ∀ (l : List Judge) (acc : List (String × JudgeResult)),
      (∀ j ∈ l, ∃ e, j.run doc po = Except.error e) →
      l.foldl (fun acc j =>
        match j.run doc po with
        | Except.ok r => dict_insert r.judge_name r acc
        | Except.error _ => acc) acc = acc by
    exact H judges [] h
  intro l
  induction l with
  | nil => intro acc _; rfl
  | cons j t ih =>
    intro acc hall
    obtain ⟨e, he⟩ := hall j (List.mem_cons_self _ _)
    simp only [List.foldl_cons, he]
    exact ih acc fun x hx => hall x (List.mem_cons_of_mem _ hx)

/-!
Claim theorems and their witnesses.
-/

/-- C7: constructing a JudgePanel with fewer than 2 successfully
initialized judges fails with the configuration error, before any
per-document evaluation is dispatched (the constructor never invokes any
judge's `run`); with 2 or more initialized judges construction succeeds
and keeps exactly those judges. -/
theorem C7_panel_construction_guard (g c m : Option Judge) :
    (([g, c, m].filterMap id).length < 2 →
      init_panel g c m = Except.error "At least 2 judges required for panel") ∧
    (2 ≤ ([g, c, m].filterMap id).length →
      init_panel g c m = Except.ok ([g, c, m].filterMap id)) := by
  constructor
  · intro h
    unfold init_panel
    rw [if_pos h]
  · intro h
    unfold init_panel
    rw [if_neg (Nat.not_lt.mpr h)]

theorem C7_panel_construction_guard_witness :
    ([some jGoodW, none, none].filterMap id).length < 2 ∧
    init_panel (some jGoodW) none none
      = Except.error "At least 2 judges required for panel" := by
  have h : ([some jGoodW, (none : Option Judge), none].filterMap id).length < 2 := by
    simp
  exact ⟨h, (C7_panel_construction_guard (some jGoodW) none none).1 h⟩

/-- C10: when every dispatched judge's `judge_providers` raises, so that
`individual_results` is empty, `judge_document` returns no PanelResult
at all: it fails with the error of the consensus-winner step, which takes
the maximum of an empty vote tally. -/
theorem C10_all_judges_fail (judges : List Judge) (doc ts : String)
    (po : ProviderOutputs) (h : ∀ j ∈ judges, ∃ e, j.run doc po = Except.error e) :
    judge_document judges doc ts po = Except.error PanelError.empty_votes := by
  unfold judge_document
  rw [run_judges_parallel_all_fail judges doc po h]
  rfl

theorem C10_all_judges_fail_witness :
    (∀ j ∈ [jBadW], ∃ e, j.run "d" [] = Except.error e) ∧
    judge_document [jBadW] "d" "t" [] = Except.error PanelError.empty_votes := by
  have h : ∀ j ∈ [jBadW], ∃ e, j.run "d" ([] : ProviderOutputs) = Except.error e := by
    intro j hj
    rw [List.mem_singleton] at hj
    subst hj
    exact ⟨"boom", rfl⟩
  exact ⟨h, C10_all_judges_fail [jBadW] "d" "t" [] h⟩

theorem bump_vote_cons_ne (p : String × ℕ) (ps : List (String × ℕ)) (w : String)
    (h : ¬ p.1 = w) : bump_vote (p :: ps) w = p :: bump_vote ps w := by
  unfold bump_vote
  by_cases h2 : ps.any (fun q => q.1 = w)
  · simp [List.any_cons, h, h2]
  · simp [List.any_cons, h, h2]

theorem lookup_count_bump_self (votes : List (String × ℕ)) (w : String) :
    lookup_count (bump_vote votes w) w = lookup_count votes w + 1 := by
  induction votes with
  | nil => simp [bump_vote, lookup_count]
  | cons p ps ih =>
    by_cases hp : p.1 = w
    · have hany : (p :: ps).any (fun q => q.1 = w) = true := by
        simp [List.any_cons, hp]
      unfold bump_vote
      rw [if_pos hany]
      simp [lookup_count, hp]
    · rw [bump_vote_cons_ne p ps w hp]
      simp [lookup_count, hp, ih]

theorem lookup_count_map_ne (ps : List (String × ℕ)) (u w : String) (h : ¬ w = u) :
    lookup_count (ps.map (fun p => if p.1 = u then (p.1, p.2 + 1) else p)) w
      = lookup_count ps w := by
  induction ps with
  | nil => rfl
  | cons q qs ih =>
    by_cases hq : q.1 = u
    · have hqw : ¬ q.1 = w := by rw [hq]; exact fun hh => h hh.symm
      simp only [List.map_cons]
      rw [show (if q.1 = u then (q.1, q.2 + 1) else q) = (q.1, q.2 + 1) from if_pos hq]
      simp [lookup_count, hqw, ih]
    · simp only [List.map_cons]
      rw [show (if q.1 = u then (q.1, q.2 + 1) else q) = q from if_neg hq]
      by_cases hw : q.1 = w
      · simp [lookup_count, hw]
      · simp [lookup_count, hw, ih]

theorem lookup_count_append_single (votes : List (String × ℕ)) (u w : String)
    (h : ¬ w = u) : lookup_count (votes ++ [(u, 1)]) w = lookup_count votes w := by
  induction votes with
  | nil =>
    simp only [List.nil_append, lookup_count]
    rw [if_neg (fun hh => h hh.symm)]
  | cons q qs ih =>
    by_cases hw : q.1 = w
    · simp [lookup_count, hw]
    · simp [lookup_count, hw, ih]

theorem lookup_count_bump_ne (votes : List (String × ℕ)) (u w : String) (h : ¬ w = u) :
    lookup_count (bump_vote votes u) w = lookup_count votes w := by
  unfold bump_vote
  by_cases hany : votes.any (fun q => q.1 = u)
  · rw [if_pos hany]
    exact lookup_count_map_ne votes u w h
  · rw [if_neg hany]
    exact lookup_count_append_single votes u w h

theorem lookup_count_tally (rs : List JudgeResult) (w : String) :
    lookup_count (tally_votes rs) w = (rs.map (fun r => r.winner)).count w := by
  unfold tally_votes
  suffices H : ∀ (l : List JudgeResult) (acc : List (String × ℕ)),
      lookup_count (l.foldl (fun votes r => bump_vote votes r.winner) acc) w
        = lookup_count acc w + (l.map (fun r => r.winner)).count w by
    simpa [lookup_count] using H rs []
  intro l
  induction l with
  | nil => intro acc; simp [lookup_count]
  | cons r t ih =>
    intro acc
    simp only [List.foldl_cons, List.map_cons]
    rw [ih]
    by_cases hw : r.winner = w
    · rw [hw, lookup_count_bump_self, List.count_cons]
      simp [hw]
      omega
    · rw [lookup_count_bump_ne acc r.winner w (fun hh => hw hh.symm), List.count_cons]
      simp [hw]

theorem mem_bump_vote (votes : List (String × ℕ)) (u : String) (S : List String)
    (hS : ∀ v ∈ votes, 0 < v.2 ∧ v.1 ∈ S) (hu : u ∈ S) :
    ∀ v ∈ bump_vote votes u, 0 < v.2 ∧ v.1 ∈ S := by
  intro v hv
  unfold bump_vote at hv
  by_cases hany : votes.any (fun q => q.1 = u)
  · rw [if_pos hany] at hv
    obtain ⟨p, hp, hpv⟩ := List.mem_map.mp hv
    by_cases hpu : p.1 = u
    · rw [if_pos hpu] at hpv
      subst hpv
      exact ⟨Nat.succ_pos _, (hS p hp).2⟩
    · rw [if_neg hpu] at hpv
      subst hpv
      exact hS p hp
  · rw [if_neg hany] at hv
    rcases List.mem_append.mp hv with hv2 | hv2
    · exact hS v hv2
    · rw [List.mem_singleton] at hv2
      subst hv2
      exact ⟨Nat.one_pos, hu⟩

theorem tally_votes_entries (rs : List JudgeResult) :
    ∀ v ∈ tally_votes rs, 0 < v.2 ∧ v.1 ∈ rs.map (fun r => r.winner) := by
  unfold tally_votes
  suffices H : ∀ (l : List JudgeResult) (acc : List (String × ℕ)) (S : List String),
      (∀ v ∈ acc, 0 < v.2 ∧ v.1 ∈ S) → (∀ r ∈ l, r.winner ∈ S) →
      ∀ v ∈ l.foldl (fun votes r => bump_vote votes r.winner) acc, 0 < v.2 ∧ v.1 ∈ S by
    exact H rs [] (rs.map (fun r => r.winner)) (by simp)
      (fun r hr => List.mem_map.mpr ⟨r, hr, rfl⟩)
  intro l
  induction l with
  | nil => intro acc S hacc _; exact hacc
  | cons r t ih =>
    intro acc S hacc hl
    simp only [List.foldl_cons]
    exact ih (bump_vote acc r.winner) S
      (mem_bump_vote acc r.winner S hacc (hl r (List.mem_cons_self _ _)))
      (fun x hx => hl x (List.mem_cons_of_mem _ hx))

theorem foldl_max_first (xs : List (String × ℕ)) :
    ∀ b r : String × ℕ,
      xs.foldl (fun best p => if best.2 < p.2 then p else best) b = r →
      (r = b ∧ ∀ q ∈ xs, q.2 ≤ b.2) ∨
      (∃ pre post, xs = pre ++ r :: post ∧ b.2 < r.2 ∧
        (∀ q ∈ pre, q.2 < r.2) ∧ (∀ q ∈ post, q.2 ≤ r.2)) := by
  induction xs with
  | nil =>
    intro b r h
    left
    exact ⟨h.symm, by simp⟩
  | cons x t ih =>
    intro b r h
    simp only [List.foldl_cons] at h
    by_cases hx : b.2 < x.2
    · rw [if_pos hx] at h
      rcases ih x r h with ⟨hrb, hall⟩ | ⟨pre, post, ht, hlt, hpre, hpost⟩
      · right
        refine ⟨[], t, by rw [hrb, List.nil_append], ?_, by simp, ?_⟩
        · rw [hrb]; exact hx
        · intro q hq; rw [hrb]; exact hall q hq
      · right
        refine ⟨x :: pre, post, by rw [List.cons_append, ht], lt_trans hx hlt, ?_, hpost⟩
        intro q hq
        rcases List.mem_cons.mp hq with hq | hq
        · subst hq; exact hlt
        · exact hpre q hq
    · rw [if_neg hx] at h
      rcases ih b r h with ⟨hrb, hall⟩ | ⟨pre, post, ht, hlt, hpre, hpost⟩
      · left
        refine ⟨hrb, ?_⟩
        intro q hq
        rcases List.mem_cons.mp hq with hq | hq
        · subst hq; exact Nat.le_of_not_lt hx
        · exact hall q hq
      · right
        refine ⟨x :: pre, post, by rw [List.cons_append, ht], hlt, ?_, hpost⟩
        intro q hq
        rcases List.mem_cons.mp hq with hq | hq
        · subst hq; exact lt_of_le_of_lt (Nat.le_of_not_lt hx) hlt
        · exact hpre q hq

theorem py_max_by_count_spec (l : List (String × ℕ)) (hl : l ≠ []) :
    ∃ m pre post, py_max_by_count l = some m ∧ l = pre ++ m :: post ∧
      (∀ q ∈ pre, q.2 < m.2) ∧ (∀ q ∈ l, q.2 ≤ m.2) := by
  match l, hl with
  | x :: xs, _ =>
    have hsome : py_max_by_count (x :: xs)
        = some (xs.foldl (fun best p => if best.2 < p.2 then p else best) x) := rfl
    rcases foldl_max_first xs x
        (xs.foldl (fun best p => if best.2 < p.2 then p else best) x) rfl with
      ⟨hrb, hall⟩ | ⟨pre, post, ht, hlt, hpre, hpost⟩
    · refine ⟨x, [], xs, ?_, ?_, by simp, ?_⟩
      · rw [hsome, hrb]
      · simp
      · intro q hq
        rcases List.mem_cons.mp hq with hq | hq
        · subst hq; exact le_refl _
        · exact hall q hq
    · refine ⟨xs.foldl (fun best p => if best.2 < p.2 then p else best) x,
        x :: pre, post, hsome, ?_, ?_, ?_⟩
      · rw [List.cons_append]
        conv_lhs => rw [ht]
      · intro q hq
        rcases List.mem_cons.mp hq with hq | hq
        · subst hq; exact hlt
        · exact hpre q hq
      · intro q hq
        rcases List.mem_cons.mp hq with hq | hq
        · subst hq; exact le_of_lt hlt
        · rw [ht] at hq
          rcases List.mem_append.mp hq with hq | hq
          · exact le_of_lt (hpre q hq)
          · rcases List.mem_cons.mp hq with hq | hq
            · subst hq; exact le_refl _
            · exact hpost q hq

theorem bump_vote_ne_nil (votes : List (String × ℕ)) (w : String) :
    bump_vote votes w ≠ [] := by
  unfold bump_vote
  by_cases hany : votes.any (fun q => q.1 = w)
  · rw [if_pos hany]
    cases votes with
    | nil => simp at hany
    | cons p ps => simp
  · rw [if_neg hany]
    simp

theorem tally_votes_ne_nil (rs : List JudgeResult) (h : rs ≠ []) :
    tally_votes rs ≠ [] := by
  have H : ∀ (l : List JudgeResult) (acc : List (String × ℕ)), acc ≠ [] →
      l.foldl (fun votes r => bump_vote votes r.winner) acc ≠ [] := by
    intro l
    induction l with
    | nil => intro acc hacc; exact hacc
    | cons r t ih =>
      intro acc _
      simp only [List.foldl_cons]
      exact ih (bump_vote acc r.winner) (bump_vote_ne_nil acc r.winner)
  match rs, h with
  | r :: t, _ =>
    unfold tally_votes
    simp only [List.foldl_cons]
    exact H t (bump_vote [] r.winner) (bump_vote_ne_nil [] r.winner)

/-- C2: the consensus winner is determined by tallying each surviving
judge's self-reported winner; `winner_votes` maps each voted-for provider
to its vote count (and contains no other entries); the winner is the
first-encountered provider, in tally order, attaining the maximum vote
count — every strictly earlier tally entry has a strictly smaller count —
rather than the alphabetical or highest-scoring one. -/
theorem C2_consensus_winner_tally (rs : List JudgeResult) (h : rs ≠ []) :
    ∃ w n pre post,
      determine_consensus_winner rs = some (w, tally_votes rs) ∧
      (∀ p, lookup_count (tally_votes rs) p = (rs.map (fun r => r.winner)).count p) ∧
      (∀ v ∈ tally_votes rs, 0 < v.2 ∧ v.1 ∈ rs.map (fun r => r.winner)) ∧
      tally_votes rs = pre ++ (w, n) :: post ∧
      (∀ q ∈ pre, q.2 < n) ∧
      (∀ q ∈ tally_votes rs, q.2 ≤ n) := by
  obtain ⟨m, pre, post, hmax, hdecomp, hpre, hall⟩ :=
    py_max_by_count_spec (tally_votes rs) (tally_votes_ne_nil rs h)
  refine ⟨m.1, m.2, pre, post, ?_, fun p => lookup_count_tally rs p,
    tally_votes_entries rs, by simpa using hdecomp, hpre, hall⟩
  unfold determine_consensus_winner
  rw [hmax]
  rfl

theorem C2_consensus_winner_tally_witness :
    rsABA ≠ [] ∧
    determine_consensus_winner rsABA = some ("A", [("A", 2), ("B", 1)]) := by
  have h : rsABA ≠ [] := by simp [rsABA]
  obtain ⟨w, n, pre, post, hdet, -⟩ := C2_consensus_winner_tally rsABA h
  exact ⟨h, by decide⟩

theorem run_judges_parallel_filter (judges : List Judge) (doc : String)
    (po : ProviderOutputs) :
    run_judges_parallel judges doc po =
      run_judges_parallel (judges.filter (fun j => (j.run doc po).toOption.isSome)) doc po := by
  unfold run_judges_parallel
  suffices H : ∀ (l : List Judge) (acc : List (String × JudgeResult)),
      l.foldl (fun acc j =>
        match j.run doc po with
        | Except.ok r => dict_insert r.judge_name r acc
        | Except.error _ => acc) acc
      = (l.filter (fun j => (j.run doc po).toOption.isSome)).foldl (fun acc j =>
        match j.run doc po with
        | Except.ok r => dict_insert r.judge_name r acc
        | Except.error _ => acc) acc by
    exact H judges []
  intro l
  induction l with
  | nil => intro acc; rfl
  | cons j t ih =>
    intro acc
    cases hr : j.run doc po with
    | ok r =>
      rw [List.filter_cons_of_pos (by rw [hr]; rfl)]
      simp only [List.foldl_cons, hr]
      exact ih (dict_insert r.judge_name r acc)
    | error e =>
      rw [List.filter_cons_of_neg (by simp [hr, Except.toOption])]
      simp only [List.foldl_cons, hr]
      exact ih acc

theorem mem_dict_insert (k : String) (v : JudgeResult)
    (d : List (String × JudgeResult)) (q : String × JudgeResult)
    (hq : q ∈ dict_insert k v d) : q ∈ d ∨ q = (k, v) := by
  unfold dict_insert at hq
  by_cases hany : d.any (fun p => p.1 = k)
  · rw [if_pos hany] at hq
    obtain ⟨p, hp, hpq⟩ := List.mem_map.mp hq
    by_cases hpk : p.1 = k
    · rw [if_pos hpk] at hpq
      right
      exact hpq.symm
    · rw [if_neg hpk] at hpq
      left
      rw [← hpq]
      exact hp
  · rw [if_neg hany] at hq
    rcases List.mem_append.mp hq with hq2 | hq2
    · exact Or.inl hq2
    · right
      exact List.mem_singleton.mp hq2

theorem run_judges_parallel_mem (judges : List Judge) (doc : String)
    (po : ProviderOutputs) :
    ∀ q ∈ run_judges_parallel judges doc po,
      ∃ j ∈ judges, ∃ r, j.run doc po = Except.ok r ∧ q = (r.judge_name, r) := by
  unfold run_judges_parallel
  suffices H : ∀ (l : List Judge) (acc : List (String × JudgeResult)) (q : String × JudgeResult),
      q ∈ l.foldl (fun acc j =>
        match j.run doc po with
        | Except.ok r => dict_insert r.judge_name r acc
        | Except.error _ => acc) acc →
      q ∈ acc ∨ ∃ j ∈ l, ∃ r, j.run doc po = Except.ok r ∧ q = (r.judge_name, r) by
    intro q hq
    rcases H judges [] q hq with hq2 | hq2
    · simp at hq2
    · exact hq2
  intro l
  induction l with
  | nil => intro acc q hq; exact Or.inl hq
  | cons j t ih =>
    intro acc q hq
    simp only [List.foldl_cons] at hq
    cases hr : j.run doc po with
    | ok r =>
      rw [hr] at hq
      rcases ih (dict_insert r.judge_name r acc) q hq with hq2 | ⟨j2, hj2, r2, hr2, hq2⟩
      · rcases mem_dict_insert r.judge_name r acc q hq2 with hq3 | hq3
        · exact Or.inl hq3
        · exact Or.inr ⟨j, List.mem_cons_self _ _, r, hr, hq3⟩
      · exact Or.inr ⟨j2, List.mem_cons_of_mem _ hj2, r2, hr2, hq2⟩
    | error e =>
      rw [hr] at hq
      rcases ih acc q hq with hq2 | ⟨j2, hj2, r2, hr2, hq2⟩
      · exact Or.inl hq2
      · exact Or.inr ⟨j2, List.mem_cons_of_mem _ hj2, r2, hr2, hq2⟩

theorem dict_insert_ne_nil (k : String) (v : JudgeResult)
    (d : List (String × JudgeResult)) : dict_insert k v d ≠ [] := by
  unfold dict_insert
  by_cases hany : d.any (fun p => p.1 = k)
  · rw [if_pos hany]
    cases d with
    | nil => simp at hany
    | cons p ps => simp
  · rw [if_neg hany]
    simp

theorem run_judges_parallel_ne_nil (judges : List Judge) (doc : String)
    (po : ProviderOutputs) (j0 : Judge) (hj : j0 ∈ judges) (r0 : JudgeResult)
    (hr : j0.run doc po = Except.ok r0) :
    run_judges_parallel judges doc po ≠ [] := by
  unfold run_judges_parallel
  have hpres : ∀ (l : List Judge) (acc : List (String × JudgeResult)), acc ≠ [] →
      l.foldl (fun acc j =>
        match j.run doc po with
        | Except.ok r => dict_insert r.judge_name r acc
        | Except.error _ => acc) acc ≠ [] := by
    intro l
    induction l with
    | nil => intro acc hacc; exact hacc
    | cons j t ih =>
      intro acc hacc
      simp only [List.foldl_cons]
      cases hjr : j.run doc po with
      | ok r => exact ih (dict_insert r.judge_name r acc) (dict_insert_ne_nil _ _ _)
      | error e => exact ih acc hacc
  suffices H : ∀ (l : List Judge) (acc : List (String × JudgeResult)), j0 ∈ l →
      l.foldl (fun acc j =>
        match j.run doc po with
        | Except.ok r => dict_insert r.judge_name r acc
        | Except.error _ => acc) acc ≠ [] by
    exact H judges [] hj
  intro l
  induction l with
  | nil => intro acc hmem; simp at hmem
  | cons j t ih =>
    intro acc hmem
    simp only [List.foldl_cons]
    rcases List.mem_cons.mp hmem with hmem | hmem
    · subst hmem
      rw [hr]
      exact hpres t (dict_insert r0.judge_name r0 acc) (dict_insert_ne_nil _ _ _)
    · exact ih _ hmem

/-- C3: a judge whose `judge_providers` raises is excluded without
aborting the evaluation: when at least one judge succeeds,
`judge_document` returns a PanelResult computed exactly as if only the
succeeding judges had been dispatched, and the failed judge's name (which
no surviving result carries) is absent from `individual_results` and from
`judges_used`. -/
theorem C3_failed_judge_excluded (judges : List Judge) (doc ts : String)
    (po : ProviderOutputs) (jf : Judge) (ef : String) (hjf : jf ∈ judges)
    (hfail : jf.run doc po = Except.error ef) (js : Judge) (rs0 : JudgeResult)
    (hjs : js ∈ judges) (hok : js.run doc po = Except.ok rs0) (fname : String)
    (hfname : ∀ j ∈ judges, ∀ r, j.run doc po = Except.ok r → r.judge_name ≠ fname) :
    judge_document judges doc ts po =
      judge_document (judges.filter (fun j => (j.run doc po).toOption.isSome)) doc ts po ∧
    ∃ pr, judge_document judges doc ts po = Except.ok pr ∧
      pr.individual_results = run_judges_parallel judges doc po ∧
      (∀ q ∈ pr.individual_results, q.1 ≠ fname) ∧
      (∀ nm ∈ pr.judges_used, nm ≠ fname) := by
  have hkey : ∀ q ∈ run_judges_parallel judges doc po, q.1 ≠ fname := by
    intro q hq
    obtain ⟨j, hj, r, hjr, hqr⟩ := run_judges_parallel_mem judges doc po q hq
    rw [hqr]
    exact hfname j hj r hjr
  have hne : run_judges_parallel judges doc po ≠ [] :=
    run_judges_parallel_ne_nil judges doc po js hjs rs0 hok
  have hmapne : (run_judges_parallel judges doc po).map (fun p => p.2) ≠ [] := by
    intro hc
    exact hne (List.map_eq_nil_iff.mp hc)
  obtain ⟨m, pre, post, hmax, -, -, -⟩ :=
    py_max_by_count_spec (tally_votes ((run_judges_parallel judges doc po).map (fun p => p.2)))
      (tally_votes_ne_nil _ hmapne)
  have hdet : determine_consensus_winner ((run_judges_parallel judges doc po).map (fun p => p.2))
      = some (m.1, tally_votes ((run_judges_parallel judges doc po).map (fun p => p.2))) := by
    unfold determine_consensus_winner
    rw [hmax]
    rfl
  have hdd : judge_document judges doc ts po = Except.ok
      { document_name := doc
      , timestamp := ts
      , judges_used := (run_judges_parallel judges doc po).map (fun p => p.2.judge_name)
      , individual_results := run_judges_parallel judges doc po
      , consensus_method := "median_scores_majority_winner"
      , consensus_scores :=
          calculate_consensus_scores ((run_judges_parallel judges doc po).map (fun p => p.2)) po
      , consensus_winner := m.1
      , winner_votes := tally_votes ((run_judges_parallel judges doc po).map (fun p => p.2))
      , agreement := calculate_agreement (run_judges_parallel judges doc po)
          (calculate_consensus_scores ((run_judges_parallel judges doc po).map (fun p => p.2)) po)
      , total_cost := ((run_judges_parallel judges doc po).map (fun p => p.2.cost)).sum
      , total_thinking_tokens :=
          ((run_judges_parallel judges doc po).map (fun p => p.2.thinking_tokens)).sum } := by
    simp only [judge_document]
    rw [hdet]
  constructor
  · unfold judge_document
    rw [run_judges_parallel_filter judges doc po]
  · refine ⟨_, hdd, rfl, hkey, ?_⟩
    intro nm hnm
    obtain ⟨q, hq, hqnm⟩ := List.mem_map.mp hnm
    obtain ⟨j, hj, r, hjr, hqr⟩ := run_judges_parallel_mem judges doc po q hq
    rw [← hqnm, hqr]
    exact hfname j hj r hjr

theorem C3_failed_judge_excluded_witness :
    (jBadW.run "d" [] = Except.error "boom") ∧
    ∃ pr, judge_document [jGoodW, jBadW] "d" "t" [] = Except.ok pr ∧
      pr.individual_results = run_judges_parallel [jGoodW, jBadW] "d" [] ∧
      (∀ q ∈ pr.individual_results, q.1 ≠ "claude-opus-4-1") ∧
      (∀ nm ∈ pr.judges_used, nm ≠ "claude-opus-4-1") := by
  have hfname : ∀ j ∈ [jGoodW, jBadW], ∀ r : JudgeResult,
      j.run "d" ([] : ProviderOutputs) = Except.ok r → r.judge_name ≠ "claude-opus-4-1" := by
    intro j hj r hr
    rcases List.mem_cons.mp hj with hj2 | hj2
    · subst hj2
      have : r = mkJR "gpt-5" "A" [] := by
        have h2 : Except.ok (mkJR "gpt-5" "A" []) = (Except.ok r : Except String JudgeResult) := hr
        exact (Except.ok.inj h2).symm
      rw [this]
      decide
    · rcases List.mem_cons.mp hj2 with hj3 | hj3
      · subst hj3
        exact absurd hr (by simp [jBadW])
      · simp at hj3
  refine ⟨rfl, ?_⟩
  exact (C3_failed_judge_excluded [jGoodW, jBadW] "d" "t" [] jBadW "boom"
    (List.mem_cons_of_mem _ (List.mem_cons_self _ _)) rfl jGoodW (mkJR "gpt-5" "A" [])
    (List.mem_cons_self _ _) rfl "claude-opus-4-1" hfname).2

theorem except_ok_bind {α β : Type} (a : α) (f : α → Except JudgeError β) :
    (Except.ok a : Except JudgeError α) >>= f = f a := rfl

theorem req_str_ok_isSome (entry : List (String × JsonVal)) (k : String) (v : String)
    (h : req_str entry k = Except.ok v) : (get_field entry k).isSome := by
  unfold req_str at h
  cases hg : get_field entry k with
  | none => rw [hg] at h; exact Except.noConfusion h
  | some j => simp [hg]

theorem req_float_ok_isSome (entry : List (String × JsonVal)) (k : String) (v : ℚ)
    (h : req_float entry k = Except.ok v) : (get_field entry k).isSome := by
  unfold req_float req_field at h
  cases hg : get_field entry k with
  | none => rw [hg] at h; exact Except.noConfusion h
  | some j => simp [hg]

theorem parse_provider_entry_ok (doc : String) (po : ProviderOutputs)
    (entry : List (String × JsonVal)) (s : ProviderScore)
    (h : parse_provider_entry doc po (JsonVal.obj entry) = Except.ok s) :
    (∀ k ∈ required_keys, (get_field entry k).isSome) ∧
    s.document_name = doc ∧
    s.event_count = (povGet po s.provider).length := by
  simp only [parse_provider_entry] at h
  cases h1 : req_str entry "provider" with
  | error e => rw [h1] at h; exact Except.noConfusion h
  | ok provider =>
  rw [h1] at h
  cases h2 : req_float entry "completeness" with
  | error e => rw [h2] at h; exact Except.noConfusion h
  | ok completeness =>
  rw [h2] at h
  cases h3 : req_float entry "accuracy" with
  | error e => rw [h3] at h; exact Except.noConfusion h
  | ok accuracy =>
  rw [h3] at h
  cases h4 : req_float entry "hallucinations" with
  | error e => rw [h4] at h; exact Except.noConfusion h
  | ok hallucinations =>
  rw [h4] at h
  cases h5 : req_float entry "citation_quality" with
  | error e => rw [h5] at h; exact Except.noConfusion h
  | ok citation_quality =>
  rw [h5] at h
  cases h6 : req_float entry "overall_quality" with
  | error e => rw [h6] at h; exact Except.noConfusion h
  | ok overall_quality =>
  rw [h6] at h
  cases h7 : req_str entry "reasoning" with
  | error e => rw [h7] at h; exact Except.noConfusion h
  | ok reasoning =>
  rw [h7] at h
  have hs := Except.ok.inj h
  refine ⟨?_, ?_, ?_⟩
  · intro k hk
    simp only [required_keys, List.mem_cons] at hk
    rcases hk with rfl | rfl | rfl | rfl | rfl | rfl | rfl | hk
    · exact req_str_ok_isSome entry _ _ h1
    · exact req_float_ok_isSome entry _ _ h2
    · exact req_float_ok_isSome entry _ _ h3
    · exact req_float_ok_isSome entry _ _ h4
    · exact req_float_ok_isSome entry _ _ h5
    · exact req_float_ok_isSome entry _ _ h6
    · exact req_str_ok_isSome entry _ _ h7
    · simp at hk
  · rw [← hs]
  · rw [← hs]

theorem parse_provider_entry_error_of_missing (doc : String) (po : ProviderOutputs)
    (entry : List (String × JsonVal)) (k : String) (hk : k ∈ required_keys)
    (hmiss : get_field entry k = none) :
    ∃ err, parse_provider_entry doc po (JsonVal.obj entry) = Except.error err := by
  cases hres : parse_provider_entry doc po (JsonVal.obj entry) with
  | error e => exact ⟨e, rfl⟩
  | ok s =>
    have := (parse_provider_entry_ok doc po entry s hres).1 k hk
    rw [hmiss] at this
    exact absurd this (by simp)

theorem build_scores_error_of_mem (doc : String) (po : ProviderOutputs)
    (entries : List JsonVal) (entry : JsonVal) (hmem : entry ∈ entries) (err : JudgeError)
    (herr : parse_provider_entry doc po entry = Except.error err) :
    ∃ e2, build_scores doc po entries = Except.error e2 := by
  induction entries with
  | nil => simp at hmem
  | cons x xs ih =>
    cases hx : parse_provider_entry doc po x with
    | error e =>
      refine ⟨e, ?_⟩
      unfold build_scores
      rw [hx]
      rfl
    | ok s =>
      rcases List.mem_cons.mp hmem with hmem2 | hmem2
      · subst hmem2
        rw [hx] at herr
        exact Except.noConfusion herr
      · obtain ⟨e2, he2⟩ := ih hmem2
        refine ⟨e2, ?_⟩
        unfold build_scores
        rw [hx, he2]
        rfl

theorem build_scores_ok_spec (doc : String) (po : ProviderOutputs) :
    ∀ (entries : List JsonVal) (l : List ProviderScore),
      build_scores doc po entries = Except.ok l →
      l.length = entries.length ∧
      ∀ s ∈ l, ∃ entry ∈ entries, parse_provider_entry doc po entry = Except.ok s := by
  intro entries
  induction entries with
  | nil =>
    intro l h
    have : ([] : List ProviderScore) = l := Except.ok.inj h
    subst this
    exact ⟨rfl, by simp⟩
  | cons x xs ih =>
    intro l h
    unfold build_scores at h
    cases hx : parse_provider_entry doc po x with
    | error e => rw [hx] at h; exact Except.noConfusion h
    | ok s =>
    rw [hx] at h
    cases hxs : build_scores doc po xs with
    | error e => rw [hxs] at h; exact Except.noConfusion h
    | ok rest =>
    rw [hxs] at h
    have hl : s :: rest = l := Except.ok.inj h
    subst hl
    obtain ⟨hlen, hmem⟩ := ih rest hxs
    refine ⟨by simp [hlen], ?_⟩
    intro t ht
    rcases List.mem_cons.mp ht with ht2 | ht2
    · subst ht2
      exact ⟨x, List.mem_cons_self _ _, hx⟩
    · obtain ⟨entry, hentry, hpe⟩ := hmem t ht2
      exact ⟨entry, List.mem_cons_of_mem _ hentry, hpe⟩

/-- C8: for every judge variant, an API-level exception, a response body
that is not valid JSON, or a response entry missing one of the required
fields makes the whole `judge_providers` call fail with an error — no
partial JudgeResult is produced by the judge; isolation of the failure is
the Panel's job. -/
theorem C8_judge_call_failure_modes (jn mo ts : String) (tt : ℕ) (cost : ℚ)
    (doc : String) (po : ProviderOutputs) :
    (∀ msg, judge_providers jn mo ts tt cost doc po (ApiResponse.apiFailure msg)
        = Except.error (JudgeError.apiFailure msg)) ∧
    (∀ raw, judge_providers jn mo ts tt cost doc po (ApiResponse.invalidJson raw)
        = Except.error JudgeError.jsonDecode) ∧
    (∀ fields entries entry k,
        get_field fields "providers" = some (JsonVal.arr entries) →
        JsonVal.obj entry ∈ entries →
        k ∈ required_keys →
        get_field entry k = none →
        ∃ err, judge_providers jn mo ts tt cost doc po
            (ApiResponse.jsonBody (JsonVal.obj fields)) = Except.error err) := by
  refine ⟨fun _ => rfl, fun _ => rfl, ?_⟩
  intro fields entries entry k hpf hmem hk hmiss
  obtain ⟨err, herr⟩ := parse_provider_entry_error_of_missing doc po entry k hk hmiss
  obtain ⟨e2, he2⟩ := build_scores_error_of_mem doc po entries (JsonVal.obj entry) hmem err herr
  refine ⟨e2, ?_⟩
  have hpa : providers_array fields = Except.ok entries := by
    unfold providers_array
    rw [hpf]
  simp only [judge_providers]
  rw [hpa, except_ok_bind, he2]
  rfl

theorem C8_judge_call_failure_modes_witness :
    judge_providers "gpt-5" "gpt-5" "t" 0 0 "doc" ghost_po (ApiResponse.apiFailure "timeout")
      = Except.error (JudgeError.apiFailure "timeout") ∧
    judge_providers "gpt-5" "gpt-5" "t" 0 0 "doc" ghost_po (ApiResponse.invalidJson "not json")
      = Except.error JudgeError.jsonDecode ∧
    ∃ err, judge_providers "gpt-5" "gpt-5" "t" 0 0 "doc" ghost_po
        (ApiResponse.jsonBody (JsonVal.obj missing_fields)) = Except.error err := by
  obtain ⟨h1, h2, h3⟩ := C8_judge_call_failure_modes "gpt-5" "gpt-5" "t" 0 0 "doc" ghost_po
  refine ⟨h1 "timeout", h2 "not json", ?_⟩
  exact h3 missing_fields [JsonVal.obj missing_entry] missing_entry "overall_quality"
    rfl (List.mem_singleton.mpr rfl) (by simp [required_keys]) rfl

/-- C9 counterexample: the judges do not ignore a provider named in the
response but absent from `provider_outputs` — the response entry for the
unknown provider "ghost" still yields a ProviderScore (with event_count
0), contradicting the claimed filtering. -/
theorem C9_counterexample_ghost_kept :
    ∃ r, judge_providers "gpt-5" "gpt-5" "t" 0 0 "doc" ghost_po
        (ApiResponse.jsonBody (JsonVal.obj ghost_fields)) = Except.ok r ∧
      ("ghost" ∈ ghost_po.map (fun p => p.1) → False) ∧
      r.provider_scores.map (fun s => s.provider) = ["ghost"] ∧
      r.provider_scores.map (fun s => s.event_count) = [0] ∧
      r.winner = "ghost" := by
  refine ⟨_, rfl, ?_, rfl, rfl, rfl⟩
  intro h
  simp [ghost_po] at h

/-- C9 (amended): on a successful parsed-object response whose providers
array parses, each judge's `judge_providers` constructs exactly one
ProviderScore per entry of the "providers" array — including entries
naming providers absent from the original `provider_outputs`, which are
kept with `event_count` 0 via the `.get(provider, [])` default — treats
providers of `provider_outputs` that the response omits as simply
unscored (never an error), and takes the winner verbatim from the
response's "winner" field, defaulting to "unknown" when that field is
missing. -/
theorem C9_one_score_per_response_entry (jn mo ts : String) (tt : ℕ) (cost : ℚ)
    (doc : String) (po : ProviderOutputs) (fields : List (String × JsonVal))
    (entries : List JsonVal) (scores : List ProviderScore)
    (hpf : get_field fields "providers" = some (JsonVal.arr entries))
    (hok : build_scores doc po entries = Except.ok scores) :
    ∃ r, judge_providers jn mo ts tt cost doc po
        (ApiResponse.jsonBody (JsonVal.obj fields)) = Except.ok r ∧
      r.provider_scores = scores ∧
      scores.length = entries.length ∧
      (∀ s ∈ scores, ∃ entry ∈ entries, parse_provider_entry doc po entry = Except.ok s) ∧
      (∀ s ∈ scores, s.event_count = (povGet po s.provider).length) ∧
      r.winner = winner_field fields ∧
      (get_field fields "winner" = none → r.winner = "unknown") ∧
      (∀ w, get_field fields "winner" = some (JsonVal.str w) → r.winner = w) := by
  have hpa : providers_array fields = Except.ok entries := by
    unfold providers_array
    rw [hpf]
  obtain ⟨hlen, hprov⟩ := build_scores_ok_spec doc po entries scores hok
  have hjp : judge_providers jn mo ts tt cost doc po
      (ApiResponse.jsonBody (JsonVal.obj fields)) = Except.ok
      { judge_name := jn, model := mo, document_name := doc
      , provider_scores := scores, winner := winner_field fields
      , timestamp := ts, cost := cost, thinking_tokens := tt } := by
    simp only [judge_providers]
    rw [hpa, except_ok_bind, hok]
    rfl
  refine ⟨_, hjp, rfl, hlen, hprov, ?_, rfl, ?_, ?_⟩
  · intro s hs
    obtain ⟨entry, hentry, hpe⟩ := hprov s hs
    cases entry with
    | obj e => exact (parse_provider_entry_ok doc po e s hpe).2.2
    | null => exact Except.noConfusion hpe
    | boolean b => exact Except.noConfusion hpe
    | num q => exact Except.noConfusion hpe
    | str s2 => exact Except.noConfusion hpe
    | arr l => exact Except.noConfusion hpe
  · intro hnone
    simp only [winner_field, hnone]
  · intro w hw
    simp only [winner_field, hw]

theorem C9_one_score_per_response_entry_witness :
    ∃ r, judge_providers "gpt-5" "gpt-5" "t" 0 0 "doc" ghost_po
        (ApiResponse.jsonBody (JsonVal.obj ghost_fields)) = Except.ok r ∧
      r.provider_scores.length = 1 ∧
      r.winner = "ghost" := by
  obtain ⟨r, hr, hscores, hlen, -, -, hwin, -, hwstr⟩ :=
    C9_one_score_per_response_entry "gpt-5" "gpt-5" "t" 0 0 "doc" ghost_po ghost_fields
      [JsonVal.obj ghost_entry]
      [{ provider := "ghost", document_name := "doc", completeness := 1, accuracy := 2
       , hallucinations := 3, citation_quality := 4, overall_quality := 5
       , reasoning := "r", event_count := 0 }]
      rfl rfl
  refine ⟨r, hr, ?_, hwstr "ghost" rfl⟩
  rw [hscores]
  rfl

theorem index_pairs_mem (n i j : ℕ) : (i, j) ∈ index_pairs n ↔ i < j ∧ j < n := by
  unfold index_pairs
  simp only [List.mem_flatMap, List.mem_map, List.mem_filter, List.mem_range,
    decide_eq_true_eq]
  constructor
  · rintro ⟨a, ha, b, ⟨hbn, hab⟩, heq⟩
    obtain ⟨h1, h2⟩ := Prod.mk.inj heq
    subst h1
    subst h2
    exact ⟨hab, hbn⟩
  · rintro ⟨hij, hjn⟩
    exact ⟨i, lt_trans hij hjn, j, ⟨hjn, hij⟩, rfl⟩

theorem filterMap_eq_filter_map {α β : Type} (f : α → Option β) (p : α → Bool)
    (g : α → β) : ∀ (l : List α), (∀ a ∈ l, f a = if p a then some (g a) else none) →
    l.filterMap f = (l.filter p).map g := by
  intro l
  induction l with
  | nil => intro _; rfl
  | cons x t ih =>
    intro h
    have hx := h x (List.mem_cons_self _ _)
    by_cases hp : p x
    · simp only [List.filterMap_cons, hx, if_pos hp, List.filter_cons_of_pos hp,
        List.map_cons]
      rw [ih (fun a ha => h a (List.mem_cons_of_mem _ ha))]
    · simp only [List.filterMap_cons, hx, if_neg hp, List.filter_cons_of_neg hp]
      exact ih (fun a ha => h a (List.mem_cons_of_mem _ ha))

theorem pair_correlations_eq (ir : List (String × JudgeResult)) :
    pair_correlations ir
      = ((index_pairs ir.length).filter (pc_qualifies ir)).map (pc_entry ir) := by
  unfold pair_correlations
  apply filterMap_eq_filter_map
  intro ij hij
  obtain ⟨i, j⟩ := ij
  obtain ⟨hij2, hjn⟩ := (index_pairs_mem ir.length i j).1 hij
  have hin : i < ir.length := lt_trans hij2 hjn
  have hp1 : ir.get? i = some (ir[i]) := List.get?_eq_get hin
  have hp2 : ir.get? j = some (ir[j]) := List.get?_eq_get hjn
  simp only [pc_qualifies, pc_entry, hp1, hp2]
  by_cases hc : (overall_list (ir[i]).2).length = (overall_list (ir[j]).2).length ∧
      1 < (overall_list (ir[i]).2).length
  · rw [if_pos hc, if_pos (by exact decide_eq_true hc)]
  · rw [if_neg hc, if_neg (by simp [hc])]

/-- C5: the agreement's `pearson_correlation` dict has exactly one entry
per index pair i < j of surviving judges whose positional
`overall_quality` lists have equal length at least 2 (no alignment by
provider identity), keyed "name1_vs_name2" and valued by the positional
Pearson correlation; `average_correlation` is the arithmetic mean of the
computed entries and 0.0 when none qualifies, in particular whenever
fewer than 2 judges survive. -/
theorem C5_pairwise_correlations (ir : List (String × JudgeResult))
    (cs : List (String × ConsensusScore)) :
    (calculate_agreement ir cs).pearson_correlation
        = ((index_pairs ir.length).filter (pc_qualifies ir)).map (pc_entry ir) ∧
    (∀ i j : ℕ, (i, j) ∈ index_pairs ir.length ↔ i < j ∧ j < ir.length) ∧
    ((calculate_agreement ir cs).average_correlation =
      if pair_correlations ir = [] then 0
      else ((pair_correlations ir).map (fun e => e.2)).sum
            / ((pair_correlations ir).length : ℝ)) ∧
    (ir.length < 2 → (calculate_agreement ir cs).pearson_correlation = [] ∧
        (calculate_agreement ir cs).average_correlation = 0) := by
  have h1 : (calculate_agreement ir cs).pearson_correlation = pair_correlations ir := rfl
  have hpc := pair_correlations_eq ir
  have havg : (calculate_agreement ir cs).average_correlation =
      if pair_correlations ir = [] then 0
      else ((pair_correlations ir).map (fun e => e.2)).sum
            / ((pair_correlations ir).length : ℝ) := by
    by_cases hc : pair_correlations ir = []
    · simp [calculate_agreement, meanR, hc]
    · simp [calculate_agreement, meanR, List.isEmpty_iff, hc]
  refine ⟨by rw [h1, hpc], fun i j => index_pairs_mem ir.length i j, havg, ?_⟩
  intro hlt
  have hip : index_pairs ir.length = [] := by
    have h01 : ir.length = 0 ∨ ir.length = 1 := by omega
    rcases h01 with h0 | h0 <;> rw [h0] <;> rfl
  have hempty : pair_correlations ir = [] := by
    rw [hpc, hip]
    rfl
  refine ⟨by rw [h1, hempty], ?_⟩
  rw [havg, if_pos hempty]

theorem C5_pairwise_correlations_witness :
    (calculate_agreement irPair []).pearson_correlation
      = [("j1_vs_j2", pearson_correlation [8, 9] [7, 10])] := by
  obtain ⟨h1, -, -, -⟩ := C5_pairwise_correlations irPair []
  rw [h1]
  rfl

theorem list_sum_const (l : List ℚ) (c : ℚ) (h : ∀ a ∈ l, a = c) :
    l.sum = l.length * c := by
  induction l with
  | nil => simp
  | cons x t ih =>
    rw [List.sum_cons, h x (List.mem_cons_self _ _),
      ih (fun a ha => h a (List.mem_cons_of_mem _ ha))]
    push_cast [List.length_cons]
    ring

theorem meanQ_const (l : List ℚ) (c : ℚ) (hne : l ≠ []) (h : ∀ a ∈ l, a = c) :
    meanQ l = c := by
  unfold meanQ
  rw [list_sum_const l c h]
  have hlen : (l.length : ℚ) ≠ 0 := by
    exact_mod_cast fun hh => hne (List.length_eq_zero.mp hh)
  field_simp

theorem getD_mem_of_lt (l : List ℚ) (i : ℕ) (h : i < l.length) : l.getD i 0 ∈ l := by
  rw [List.getD_eq_getElem l 0 h]
  exact List.getElem_mem h

theorem dev_sq_sum_const (x : List ℚ) (h : ∀ a ∈ x, ∀ b ∈ x, a = b) :
    dev_sq_sum x = 0 := by
  cases x with
  | nil => rfl
  | cons c t =>
    apply List.sum_eq_zero
    intro term hterm
    obtain ⟨i, hi, hterm2⟩ := List.mem_map.mp hterm
    rw [List.mem_range] at hi
    have hc : ∀ a ∈ c :: t, a = c := fun a ha => h a ha c (List.mem_cons_self _ _)
    have hm : meanQ (c :: t) = c := meanQ_const (c :: t) c (by simp) hc
    have hg : (c :: t).getD i 0 = c := hc _ (getD_mem_of_lt (c :: t) i hi)
    rw [← hterm2, hg, hm]
    ring

theorem dev_sq_sum_nonneg (x : List ℚ) : 0 ≤ dev_sq_sum x := by
  apply List.sum_nonneg
  intro term hterm
  obtain ⟨i, _, hterm2⟩ := List.mem_map.mp hterm
  rw [← hterm2]
  exact sq_nonneg _

theorem list_sum_nonneg_zero (l : List ℚ) (h0 : ∀ a ∈ l, 0 ≤ a) (hs : l.sum = 0) :
    ∀ a ∈ l, a = 0 := by
  induction l with
  | nil => intro a ha; simp at ha
  | cons x t ih =>
    intro a ha
    rw [List.sum_cons] at hs
    have hx : 0 ≤ x := h0 x (List.mem_cons_self _ _)
    have ht : 0 ≤ t.sum := List.sum_nonneg (fun b hb => h0 b (List.mem_cons_of_mem _ hb))
    have hx0 : x = 0 := by linarith
    have hts : t.sum = 0 := by linarith
    rcases List.mem_cons.mp ha with ha2 | ha2
    · rw [ha2, hx0]
    · exact ih (fun b hb => h0 b (List.mem_cons_of_mem _ hb)) hts a ha2

theorem dev_sq_sum_eq_zero_const (x : List ℚ) (h : dev_sq_sum x = 0) :
    ∀ a ∈ x, ∀ b ∈ x, a = b := by
  have hterms : ∀ t ∈ (List.range x.length).map (fun i => (x.getD i 0 - meanQ x) ^ 2),
      t = 0 := by
    apply list_sum_nonneg_zero
    · intro t ht
      obtain ⟨i, _, ht2⟩ := List.mem_map.mp ht
      rw [← ht2]
      exact sq_nonneg _
    · exact h
  have hmean : ∀ i, i < x.length → x.getD i 0 = meanQ x := by
    intro i hi
    have := hterms ((x.getD i 0 - meanQ x) ^ 2)
      (List.mem_map.mpr ⟨i, List.mem_range.mpr hi, rfl⟩)
    have h2 : x.getD i 0 - meanQ x = 0 := by
      exact pow_eq_zero_iff (n := 2) (by norm_num) |>.mp this
    linarith
  intro a ha b hb
  obtain ⟨i, hi, hia⟩ := List.mem_iff_getElem.mp ha
  obtain ⟨j, hj, hjb⟩ := List.mem_iff_getElem.mp hb
  have hga : x.getD i 0 = a := by rw [List.getD_eq_getElem x 0 hi]; exact hia
  have hgb : x.getD j 0 = b := by rw [List.getD_eq_getElem x 0 hj]; exact hjb
  rw [← hga, ← hgb, hmean i hi, hmean j hj]

/-- C6: the Panel's Pearson correlation is total, never dividing by
zero: mismatched lengths or length below 2 yield 0.0; a zero-variance
(constant) vector on either side yields 0.0 through the explicit guard;
and for an identical non-constant vector pair the result is exactly 1. -/
theorem C6_pearson_total_policy (x y : List ℚ) :
    (x.length ≠ y.length ∨ x.length < 2 → pearson_correlation x y = 0) ∧
    ((∀ a ∈ x, ∀ b ∈ x, a = b) → dev_sq_sum x = 0) ∧
    (dev_sq_sum x = 0 ∨ dev_sq_sum y = 0 → pearson_correlation x y = 0) ∧
    (2 ≤ x.length → (∃ a ∈ x, ∃ b ∈ x, ¬ a = b) → pearson_correlation x x = 1) := by
  refine ⟨?_, dev_sq_sum_const x, ?_, ?_⟩
  · intro h
    unfold pearson_correlation
    rw [if_pos h]
  · intro h
    by_cases hg : x.length ≠ y.length ∨ x.length < 2
    · unfold pearson_correlation
      rw [if_pos hg]
    · have hxy : x.length = y.length := by
        rcases not_or.mp hg with ⟨h1, _⟩
        exact not_not.mp h1
      simp only [pearson_correlation]
      rw [if_neg hg, if_pos ?hcond]
      case hcond =>
        rcases h with h | h
        · exact Or.inl h
        · refine Or.inr ?_
          rw [hxy]
          exact h
  · intro hlen hne
    have hdx : ¬ dev_sq_sum x = 0 := by
      intro h0
      obtain ⟨a, ha, b, hb, hab⟩ := hne
      exact hab (dev_sq_sum_eq_zero_const x h0 a ha b hb)
    have hdx2 : ¬ ((List.range x.length).map
        (fun i => (x.getD i 0 - meanQ x) ^ 2)).sum = 0 := hdx
    simp only [pearson_correlation]
    rw [if_neg (not_or.mpr ⟨fun hh => hh rfl, Nat.not_lt.mpr hlen⟩),
      if_neg (not_or.mpr ⟨hdx2, hdx2⟩)]
    have hnum : ((List.range x.length).map
        (fun i => (x.getD i 0 - meanQ x) * (x.getD i 0 - meanQ x))).sum
        = ((List.range x.length).map (fun i => (x.getD i 0 - meanQ x) ^ 2)).sum := by
      congr 1
      exact List.map_congr_left (fun i _ => (pow_two (x.getD i 0 - meanQ x)).symm)
    rw [hnum]
    rw [Real.sqrt_mul_self (by exact_mod_cast dev_sq_sum_nonneg x)]
    exact div_self (by exact_mod_cast hdx2)

theorem C6_pearson_total_policy_witness :
    pearson_correlation [1, 2, 3] [1, 2] = 0 ∧
    pearson_correlation [3, 3] [1, 2] = 0 ∧
    pearson_correlation [1, 2] [1, 2] = 1 := by
  obtain ⟨g1, -, -, -⟩ := C6_pearson_total_policy [1, 2, 3] [1, 2]
  obtain ⟨-, c2, c3, -⟩ := C6_pearson_total_policy [3, 3] [1, 2]
  obtain ⟨-, -, -, i4⟩ := C6_pearson_total_policy [1, 2] [1, 2]
  refine ⟨g1 (Or.inl (by decide)), ?_, ?_⟩
  · apply c3
    left
    apply c2
    intro a ha b hb
    rcases List.mem_cons.mp ha with rfl | ha2
    · rcases List.mem_cons.mp hb with rfl | hb2
      · rfl
      · rw [List.mem_singleton.mp hb2]
    · rcases List.mem_cons.mp hb with rfl | hb2
      · rw [List.mem_singleton.mp ha2]
      · rw [List.mem_singleton.mp ha2, List.mem_singleton.mp hb2]
  · refine i4 (by decide) ⟨1, List.mem_cons_self _ _, 2, ?_, ?_⟩
    · exact List.mem_cons_of_mem _ (List.mem_cons_self _ _)
    · norm_num

theorem collect_scores_eq_filterMap (results : List JudgeResult) (p : String)
    (h1 : ∀ r ∈ results, (r.provider_scores.filter (fun s => s.provider = p)).length ≤ 1) :
    collect_scores results p = results.filterMap
      (fun r => (r.provider_scores.filter (fun s => s.provider = p)).head?) := by
  induction results with
  | nil => rfl
  | cons r t ih =>
    have hr := h1 r (List.mem_cons_self _ _)
    have hstep : collect_scores (r :: t) p
        = (r.provider_scores.filter (fun s => s.provider = p)) ++ collect_scores t p := rfl
    cases hfr : r.provider_scores.filter (fun s => s.provider = p) with
    | nil =>
      rw [hstep, hfr, List.nil_append]
      rw [List.filterMap_cons_none (by rw [hfr]; rfl)]
      exact ih (fun x hx => h1 x (List.mem_cons_of_mem _ hx))
    | cons s rest =>
      have hrest : rest = [] := by
        rw [hfr] at hr
        simpa using hr
      subst hrest
      rw [hstep, hfr, List.singleton_append]
      rw [List.filterMap_cons_some (by rw [hfr]; rfl)]
      rw [ih (fun x hx => h1 x (List.mem_cons_of_mem _ hx))]

theorem filterMap_head_length (results : List JudgeResult) (p : String) :
    (results.filterMap
        (fun r => (r.provider_scores.filter (fun s => s.provider = p)).head?)).length
      = (results.filter
          (fun r => r.provider_scores.any (fun s => s.provider = p))).length := by
  induction results with
  | nil => rfl
  | cons r t ih =>
    cases hfr : r.provider_scores.filter (fun s => s.provider = p) with
    | nil =>
      have hany : r.provider_scores.any (fun s => s.provider = p) = false := by
        rw [List.any_eq_false]
        intro s hs
        have := List.filter_eq_nil_iff.mp hfr s hs
        simpa using this
      rw [List.filterMap_cons_none (by rw [hfr]; rfl),
        List.filter_cons_of_neg (by rw [hany]; simp)]
      exact ih
    | cons s rest =>
      have hany : r.provider_scores.any (fun s => s.provider = p) = true := by
        have hs : s ∈ r.provider_scores.filter (fun s => s.provider = p) := by
          rw [hfr]
          exact List.mem_cons_self _ _
        obtain ⟨hmem, hpred⟩ := List.mem_filter.mp hs
        exact List.any_eq_true.mpr ⟨s, hmem, hpred⟩
      rw [List.filterMap_cons_some (by rw [hfr]; rfl)]
      simp only [List.filter_cons, hany, if_true, List.length_cons]
      simpa using ih

theorem alist_get_filterMap_none (g : String → Option ConsensusScore) (p : String) :
    ∀ (po : ProviderOutputs), ¬ p ∈ po.map (fun q => q.1) →
    alist_get? (po.filterMap (fun q => (g q.1).map (fun c => (q.1, c)))) p = none := by
  intro po
  induction po with
  | nil => intro _; rfl
  | cons a t ih =>
    intro hnp
    simp only [List.map_cons, List.mem_cons, not_or] at hnp
    obtain ⟨hap, hnt⟩ := hnp
    cases hg : g a.1 with
    | none =>
      rw [List.filterMap_cons_none (by rw [hg]; rfl)]
      exact ih hnt
    | some c =>
      rw [List.filterMap_cons_some (by rw [hg]; rfl)]
      unfold alist_get?
      rw [List.find?_cons_of_neg _ (by simpa using fun hh => hap hh.symm)]
      exact ih hnt

theorem alist_get_calculate_consensus (results : List JudgeResult) (p : String) :
    ∀ (po : ProviderOutputs), (po.map (fun q => q.1)).Nodup →
    p ∈ po.map (fun q => q.1) →
    alist_get? (calculate_consensus_scores results po) p = consensus_for results p := by
  intro po
  unfold calculate_consensus_scores
  induction po with
  | nil =>
    intro _ hp
    simp at hp
  | cons a t ih =>
    intro hnd hp
    simp only [List.map_cons, List.nodup_cons] at hnd
    obtain ⟨hnda, hndt⟩ := hnd
    by_cases hap : a.1 = p
    · cases hg : consensus_for results a.1 with
      | none =>
        rw [List.filterMap_cons_none (by rw [hg]; rfl)]
        rw [alist_get_filterMap_none (fun q => consensus_for results q) p t
          (by rw [← hap]; exact hnda)]
        rw [← hap, hg]
      | some c =>
        rw [List.filterMap_cons_some (by rw [hg]; rfl)]
        unfold alist_get?
        rw [List.find?_cons_of_pos _ (by simpa using hap)]
        rw [← hap, hg]
        rfl
    · have hpt : p ∈ t.map (fun q => q.1) := by
        rcases List.mem_cons.mp hp with h | h
        · exact absurd h.symm hap
        · exact h
      cases hg : consensus_for results a.1 with
      | none =>
        rw [List.filterMap_cons_none (by rw [hg]; rfl)]
        exact ih hndt hpt
      | some c =>
        rw [List.filterMap_cons_some (by rw [hg]; rfl)]
        have hfind := ih hndt hpt
        unfold alist_get? at hfind ⊢
        rw [List.find?_cons_of_neg _ (by simpa using hap)]
        exact hfind

theorem consensus_for_nil (results : List JudgeResult) (p : String)
    (h : collect_scores results p = []) : consensus_for results p = none := by
  simp only [consensus_for]
  rw [if_pos (by rw [h]; rfl)]

theorem consensus_for_of_ne_nil (results : List JudgeResult) (p : String)
    (h : collect_scores results p ≠ []) :
    consensus_for results p = some
      { provider := p
      , completeness := median ((collect_scores results p).map (fun s => s.completeness))
      , accuracy := median ((collect_scores results p).map (fun s => s.accuracy))
      , hallucinations := median ((collect_scores results p).map (fun s => s.hallucinations))
      , citation_quality :=
          median ((collect_scores results p).map (fun s => s.citation_quality))
      , overall_quality :=
          median ((collect_scores results p).map (fun s => s.overall_quality))
      , score_variance :=
        { completeness :=
            stdev_or_zero ((collect_scores results p).map (fun s => s.completeness))
        , accuracy := stdev_or_zero ((collect_scores results p).map (fun s => s.accuracy))
        , hallucinations :=
            stdev_or_zero ((collect_scores results p).map (fun s => s.hallucinations))
        , citation_quality :=
            stdev_or_zero ((collect_scores results p).map (fun s => s.citation_quality))
        , overall_quality :=
            stdev_or_zero ((collect_scores results p).map (fun s => s.overall_quality)) } } := by
  simp only [consensus_for]
  rw [if_neg (by simpa [List.isEmpty_iff] using h)]

theorem stdev_or_zero_eq (coll : List ProviderScore) (f : ProviderScore → ℚ)
    (h : coll ≠ []) :
    stdev_or_zero (coll.map f) = if coll.length = 1 then 0 else stdev (coll.map f) := by
  unfold stdev_or_zero
  rw [List.length_map]
  rcases Nat.lt_or_ge 1 coll.length with hlt | hle
  · rw [if_pos hlt, if_neg (by omega)]
  · have h1 : coll.length = 1 := by
      have h0 : coll.length ≠ 0 := fun hh => h (List.length_eq_zero.mp hh)
      omega
    rw [if_neg (by omega), if_pos h1]

/-- C1: for every provider of `provider_outputs` scored by k >= 1
surviving judges — each judge contributing at most one score for it — the
consensus entry holds, per criterion, the median of exactly those k
judges' values, with `score_variance` 0.0 when k = 1 and the sample
standard deviation (the n-1 denominator of `statistics.stdev`) when
k >= 2; a provider scored by zero judges is simply absent from
`consensus_scores`, with no error raised. -/
theorem C1_consensus_scores_median_stdev (results : List JudgeResult)
    (po : ProviderOutputs) (p : String)
    (hnd : (po.map (fun q => q.1)).Nodup) (hp : p ∈ po.map (fun q => q.1))
    (h1 : ∀ r ∈ results, (r.provider_scores.filter (fun s => s.provider = p)).length ≤ 1) :
    (collect_scores results p).length
        = (results.filter (fun r => r.provider_scores.any (fun s => s.provider = p))).length ∧
    collect_scores results p = results.filterMap
        (fun r => (r.provider_scores.filter (fun s => s.provider = p)).head?) ∧
    (collect_scores results p = [] →
        alist_get? (calculate_consensus_scores results po) p = none) ∧
    (collect_scores results p ≠ [] →
      ∃ c, alist_get? (calculate_consensus_scores results po) p = some c ∧
        c.provider = p ∧
        c.completeness = median ((collect_scores results p).map (fun s => s.completeness)) ∧
        c.accuracy = median ((collect_scores results p).map (fun s => s.accuracy)) ∧
        c.hallucinations
            = median ((collect_scores results p).map (fun s => s.hallucinations)) ∧
        c.citation_quality
            = median ((collect_scores results p).map (fun s => s.citation_quality)) ∧
        c.overall_quality
            = median ((collect_scores results p).map (fun s => s.overall_quality)) ∧
        c.score_variance.completeness = (if (collect_scores results p).length = 1 then 0
            else stdev ((collect_scores results p).map (fun s => s.completeness))) ∧
        c.score_variance.accuracy = (if (collect_scores results p).length = 1 then 0
            else stdev ((collect_scores results p).map (fun s => s.accuracy))) ∧
        c.score_variance.hallucinations = (if (collect_scores results p).length = 1 then 0
            else stdev ((collect_scores results p).map (fun s => s.hallucinations))) ∧
        c.score_variance.citation_quality = (if (collect_scores results p).length = 1 then 0
            else stdev ((collect_scores results p).map (fun s => s.citation_quality))) ∧
        c.score_variance.overall_quality = (if (collect_scores results p).length = 1 then 0
            else stdev ((collect_scores results p).map (fun s => s.overall_quality)))) := by
  have hget := alist_get_calculate_consensus results p po hnd hp
  refine ⟨?_, collect_scores_eq_filterMap results p h1, ?_, ?_⟩
  · rw [collect_scores_eq_filterMap results p h1]
    exact filterMap_head_length results p
  · intro hnil
    rw [hget, consensus_for_nil results p hnil]
  · intro hnn
    refine ⟨_, by rw [hget, consensus_for_of_ne_nil results p hnn], rfl, rfl, rfl, rfl,
      rfl, rfl, stdev_or_zero_eq _ _ hnn, stdev_or_zero_eq _ _ hnn,
      stdev_or_zero_eq _ _ hnn, stdev_or_zero_eq _ _ hnn, stdev_or_zero_eq _ _ hnn⟩

theorem C1_consensus_scores_median_stdev_witness :
    (∀ r ∈ rsScores, (r.provider_scores.filter (fun s => s.provider = "A")).length ≤ 1) ∧
    (∃ c, alist_get? (calculate_consensus_scores rsScores poABC) "A" = some c ∧
      c.completeness = 9 ∧ c.score_variance.completeness = 1) ∧
    alist_get? (calculate_consensus_scores rsScores poABC) "C" = none := by
  have h1A : ∀ r ∈ rsScores,
      (r.provider_scores.filter (fun s => s.provider = "A")).length ≤ 1 := by decide
  obtain ⟨-, -, -, hsomeA⟩ :=
    C1_consensus_scores_median_stdev rsScores poABC "A" (by decide) (by decide) h1A
  obtain ⟨-, -, hnoneC, -⟩ :=
    C1_consensus_scores_median_stdev rsScores poABC "C" (by decide) (by decide) (by decide)
  have hmapA : (collect_scores rsScores "A").map (fun s => s.completeness) = [8, 9, 10] :=
    rfl
  obtain ⟨c, hc, -, hcompl, -, -, -, -, hvar, -⟩ := hsomeA (by decide)
  refine ⟨h1A, ⟨c, hc, ?_, ?_⟩, hnoneC (by decide)⟩
  · rw [hcompl, hmapA]
    decide
  · rw [hvar, if_neg (by decide), hmapA]
    unfold stdev
    have hsv : sampleVariance [8, 9, 10] = 1 := by
      norm_num [sampleVariance, meanQ]
    rw [hsv]
    norm_num

/-- C4: for a non-empty surviving-judge dict, the winner-consensus
percentage equals 100 times the fraction of surviving judges whose
self-reported winner equals the first judge's winner in result-arrival
order; the reference point is the first judge, not the majority-vote
consensus winner. -/
theorem C4_winner_consensus_vs_first_judge (ir : List (String × JudgeResult))
    (cs : List (String × ConsensusScore)) (h : ir ≠ []) :
    (calculate_agreement ir cs).winner_consensus_percentage =
      ((ir.filter (fun p => p.2.winner = (ir.head h).2.winner)).length : ℚ)
        / (ir.length : ℚ) * 100 := by
  match ir, h with
  | p0 :: rest, _ =>
    simp only [calculate_agreement, List.head_cons]
    rw [if_pos (by simp)]

theorem C4_winner_consensus_vs_first_judge_witness :
    irAAB ≠ [] ∧
    (calculate_agreement irAAB []).winner_consensus_percentage = 200 / 3 := by
  have h : irAAB ≠ [] := by simp [irAAB]
  refine ⟨h, ?_⟩
  rw [C4_winner_consensus_vs_first_judge irAAB [] h]
  simp only [irAAB, List.head_cons]
  have hBA : decide ("B" = "A") = false := by rfl
  norm_num [mkJR, List.filter, hBA]

end LegalEvents
